import Mathlib

/-
Verification of the trivia-data acquisition pipeline of
`src/App/src/useTriviaData.tsx` against its natural-language specification.

The TypeScript source is shallowly embedded below: pure helpers become Lean
functions, and the async `fetchData` routine of the `useTriviaData` hook
becomes an explicit state-passing function over

  - the React state triple (questions, loading, error)           -> `HookState`
  - the `sessionStorage` key/value store                         -> `Store`
  - the behavior of the external collaborators (the network, the
    cancellation signal, the storage `setItem` call)             -> `FetchEnv`

Suspension and cancellation: the routine is single-threaded and can only
observe the `AbortController` signal at its `await` points (each `fetch`
together with its body read, and each `wait(5000)`).  `AbortTime` names the
suspension point during which `controller.abort()` fires, and
`signalAbortedAt` computes the value of `signal.aborted` as a function of
how many fetch suspensions and wait suspensions have completed.  A fetch
issued on an already-aborted signal rejects immediately with a DOMException
named "AbortError" without issuing a network request; a fetch aborted while
in flight rejects the same way; `wait` is a bare `setTimeout` promise and
never observes the signal.
-/

namespace Trivia

/-- The raw question object received from the API (`ApiResult` in the source),
which is also the processed `Question` type (`export type Question = ApiResult`).
The `difficulty` enum is kept as its wire string. -/
structure Question where
  category : String
  type : String
  difficulty : String
  question : String
  correct_answer : String
  incorrect_answers : List String
deriving Repr, DecidableEq

/-! ### Entity decoder

The source delegates entity decoding to the browser:

  function decodeHtml(html) -- try: parse via DOMParser, return
  documentElement.textContent or else html; catch: return html

`DOMParser` is a platform API, not code of this repository.  Its
entity-decoding behavior is modelled from the spec (section 4.1: named and
numeric HTML/XML character references are converted to their literal
characters; text containing no references is returned unchanged).  The model
scans for ampersands and decodes well-formed named references from a fixed
representative table and numeric (decimal and hexadecimal) references; an
ampersand that does not begin a decodable reference is kept literally, which
is also what the HTML parser does for stray ampersands.  The
`textContent || html` fallback (an empty result is falsy in JavaScript) and
the catch-all fallback of the source wrapper are kept. -/

/-- Lookup table for the named character references the model decodes. -/
def namedRefs : List (List Char × Char) :=
  [ (['a', 'm', 'p'], '&'),
    (['l', 't'], '<'),
    (['g', 't'], '>'),
    (['q', 'u', 'o', 't'], '"'),
    (['a', 'p', 'o', 's'], '\''),
    (['n', 'b', 's', 'p'], ' '),
    (['h', 'e', 'l', 'l', 'i', 'p'], '…'),
    (['r', 's', 'q', 'u', 'o'], '’'),
    (['l', 's', 'q', 'u', 'o'], '‘'),
    (['r', 'd', 'q', 'u', 'o'], '”'),
    (['l', 'd', 'q', 'u', 'o'], '“'),
    (['e', 'a', 'c', 'u', 't', 'e'], 'é'),
    (['d', 'e', 'g'], '°') ]

/-- Find a named reference in `namedRefs`. -/
def lookupNamed (nm : List Char) : Option Char :=
  match namedRefs.find? (fun p => p.1 = nm) with
  | some p => some p.2
  | none => none

/-- Value of a digit character in the given base, if any. -/
def digitVal (base : Nat) (c : Char) : Option Nat :=
  if base = 16 then
    if '0' ≤ c ∧ c ≤ '9' then some (c.toNat - '0'.toNat)
    else if 'a' ≤ c ∧ c ≤ 'f' then some (c.toNat - 'a'.toNat + 10)
    else if 'A' ≤ c ∧ c ≤ 'F' then some (c.toNat - 'A'.toNat + 10)
    else none
  else
    if '0' ≤ c ∧ c ≤ '9' then some (c.toNat - '0'.toNat) else none

/-- The character with the given code point, if it is a valid scalar value. -/
def charOfCode (n : Nat) : Option Char :=
  if n.isValidChar then some (Char.ofNat n) else none

/-- Parse the digits of a numeric character reference up to the terminating
semicolon; returns the decoded character and the remaining input. -/
def parseNumeric (base : Nat) : List Char → Nat → Bool → Option (Char × List Char)
  | [], _, _ => none
  | c :: rest, acc, seen =>
    if c = ';' then
      if seen then
        match charOfCode acc with
        | some ch => some (ch, rest)
        | none => none
      else none
    else
      match digitVal base c with
      | some d => parseNumeric base rest (acc * base + d) true
      | none => none

/-- Scan the name of a named character reference up to the terminating
semicolon; returns the name and the remaining input. -/
def takeName : List Char → Option (List Char × List Char)
  | [] => none
  | c :: rest =>
    if c = ';' then some ([], rest)
    else if c.isAlpha ∨ c.isDigit then
      match takeName rest with
      | some (nm, r) => some (c :: nm, r)
      | none => none
    else none

/-- Parse one character reference immediately after an ampersand; `none`
means the ampersand does not begin a decodable reference and stays literal. -/
def parseRef (l : List Char) : Option (Char × List Char) :=
  match l with
  | '#' :: rest =>
    match rest with
    | 'x' :: r2 => parseNumeric 16 r2 0 false
    | 'X' :: r2 => parseNumeric 16 r2 0 false
    | _ => parseNumeric 10 rest 0 false
  | _ =>
    match takeName l with
    | some (nm, rest) =>
      match lookupNamed nm with
      | some c => some (c, rest)
      | none => none
    | none => none

/-- Decode all character references in a character list.  The fuel argument
(always called with the length of the list) makes the recursion structural;
every step consumes at least one character, so fuel never runs out. -/
def entityDecodeAux : Nat → List Char → List Char
  | 0, l => l
  | _ + 1, [] => []
  | fuel + 1, c :: rest =>
    if c = '&' then
      match parseRef rest with
      | some (d, rest2) => d :: entityDecodeAux fuel rest2
      | none => c :: entityDecodeAux fuel rest
    else c :: entityDecodeAux fuel rest

/-- The text content the modelled parser extracts: the input with all
decodable character references replaced by their literal characters. -/
def domTextContent (html : String) : String :=
  String.mk (entityDecodeAux html.data.length html.data)

/-- Embedding of `decodeHtml` from the source: extract the text content and
fall back to the original input when the result is the empty string (the
`textContent || html` expression: the empty string is falsy).  The catch
branch of the source returns the original input on any internal failure; the
modelled parser is total, so the model never reaches it, and the function is
total on strings as the wrapper promises. -/
def decodeHtml (html : String) : String :=
  let t := domTextContent html
  if t = "" then html else t

/-- Detector for decodable character references, built on the same reference
grammar the decoder uses: `true` iff some ampersand of the input begins a
decodable reference. -/
def containsRefAux : Nat → List Char → Bool
  | 0, _ => false
  | _ + 1, [] => false
  | fuel + 1, c :: rest =>
    if c = '&' then (parseRef rest).isSome || containsRefAux fuel rest
    else containsRefAux fuel rest

/-- A string contains a decodable HTML/XML character reference. -/
def containsRef (s : String) : Bool :=
  containsRefAux s.data.length s.data

/-- Embedding of the `decodedQuestions` map of the source: the `category`,
`question` and `correct_answer` fields and every element of
`incorrect_answers` are decoded; the object spread keeps `type` and
`difficulty` unchanged. -/
def decodeQuestion (q : Question) : Question :=
  { q with
    category := decodeHtml q.category
    question := decodeHtml q.question
    correct_answer := decodeHtml q.correct_answer
    incorrect_answers := q.incorrect_answers.map decodeHtml }

example : decodeHtml "A &amp; B" = "A & B" := by decide
example : decodeHtml "no refs" = "no refs" := by decide
example : decodeHtml "&#65;&#x42;" = "AB" := by decide

/-! ### The session storage and the cache

`sessionStorage` maps string keys to string values.  A stored value is
abstracted by what `JSON.parse` does to it: it either throws (`corrupt`), or
parses to a question array (`list`).  The empty string is kept apart because
`if (cachedData)` in the source skips it by falsiness without parsing.
Values whose parse succeeds but is not an array do not occur in the claims
and are outside the model. -/

/-- A stored cache value, abstracted by its parse outcome. -/
inductive CacheValue where
  | corrupt
  | emptyString
  | list (qs : List Question)
deriving Repr, DecidableEq

/-- The session storage: an association list from keys to stored values. -/
def Store := List (String × CacheValue)
deriving Repr, DecidableEq

/-- Embedding of `sessionStorage.getItem`. -/
def lookupStore : Store → String → Option CacheValue
  | [], _ => none
  | (k, v) :: rest, key => if k = key then some v else lookupStore rest key

/-- Embedding of `sessionStorage.removeItem`. -/
def removeStore (store : Store) (key : String) : Store :=
  store.filter (fun p => p.1 ≠ key)

/-- Embedding of a successful `sessionStorage.setItem`: overwrite the key. -/
def insertStore (store : Store) (key : String) (v : CacheValue) : Store :=
  (key, v) :: removeStore store key

/-! ### The fetch environment -/

/-- A JavaScript `Error` value as consulted by the catch block: its `name`
and its `message`. -/
structure JsError where
  name : String
  message : String
deriving Repr, DecidableEq

/-- Outcome of one network request, had it been issued: a non-success
transport status (`!response.ok`), a body that fails to parse as JSON
(`response.json()` rejects with a SyntaxError), or a parsed `ApiResponse`
with its `response_code` and raw `results`. -/
inductive TransportResult where
  | fail (status : Nat)
  | jsonFail (message : String)
  | ok (response_code : Nat) (results : List Question)
deriving Repr, DecidableEq

/-- The suspension point of the run during which `controller.abort()` fires,
if any.  `atFetch i` covers the in-flight phase of request `i` (the fetch
itself or the body read, both of which reject with a DOMException named
"AbortError").  `atWait i` is the `wait(5000)` after batch `i`; that timer
does not observe the signal, so the abort becomes visible only at later
checks of `signal.aborted`. -/
inductive AbortTime where
  | never
  | atFetch (i : Nat)
  | atWait (i : Nat)
deriving Repr, DecidableEq

/-- Value of `signal.aborted` once `fetchesDone` fetch suspensions and
`waitsDone` wait suspensions have completed: the abort has fired iff its
suspension point is among the completed ones. -/
def signalAbortedAt : AbortTime → Nat → Nat → Bool
  | .never, _, _ => false
  | .atFetch j, fetchesDone, _ => j < fetchesDone
  | .atWait j, _, waitsDone => j < waitsDone

/-- The external behavior one run of `fetchData` is exposed to: the outcome
of each network request by index, the abort time, and whether the final
`sessionStorage.setItem` throws (for example on storage quota) and with what
error value. -/
structure FetchEnv where
  net : Nat → TransportResult
  abort : AbortTime
  putFail : Option JsError

/-- The React state owned by the hook: `questions`, `loading`, `error`. -/
structure HookState where
  questions : List Question
  loading : Bool
  error : Option String
deriving Repr, DecidableEq

/-- The state of a freshly mounted hook: `useState([])`, `useState(true)`,
`useState(null)`. -/
def initState : HookState := ⟨[], true, none⟩

/-- Observable side effects of a run, in order: network requests issued
(with the `amount` parameter), fully elapsed `wait` delays, cache removals
and cache writes. -/
inductive Event where
  | request (i : Nat) (amount : Nat)
  | delay (ms : Nat)
  | cacheRemove (key : String)
  | cacheWrite (key : String)
deriving Repr, DecidableEq

/-! ### The batch loop -/

/-- Embedding of `const numRequests = Math.ceil(totalAmount / 50)`. -/
def numRequests (totalAmount : Nat) : Nat := (totalAmount + 49) / 50

/-- Embedding of `amountInThisRequest`: 50, except the final batch when the
total is not a multiple of 50, in which case the remainder. -/
def amountInThisRequest (total n i : Nat) : Nat :=
  if i = n - 1 ∧ total % 50 ≠ 0 then total % 50 else 50

/-- The message carried by an abort DOMException; only the `name` field is
ever consulted by the catch block, the text is browser-defined. -/
def fetchAbortMessage : String := "The operation was aborted."

/-- Outcome of the for-loop of `fetchData`: the accumulated decoded
questions on normal completion, or the caught thrown error (its `name` and
`message`). -/
inductive LoopOutcome where
  | success (acc : List Question)
  | thrown (name message : String)
deriving Repr, DecidableEq

/-- Result of running the for-loop: its event trace, its outcome, and the
value of `signal.aborted` when control leaves the loop (consulted by the
`finally` block). -/
structure LoopRes where
  events : List Event
  outcome : LoopOutcome
  finalAborted : Bool
deriving Repr, DecidableEq

/-- Embedding of the for-loop of `fetchData` (source lines 99-136).  `i` is
the loop counter; `fuel` is `n - i` and makes the recursion structural; `acc`
is `allFetchedQuestions`.  Each iteration: a `fetch` on an already-aborted
signal rejects without issuing a request; otherwise request `i` is issued
and can itself be the abort point; a non-ok status or non-zero
`response_code` throws an `Error` (name "Error") with the source message
text; otherwise the decoded batch is appended.  When `i < numRequests - 1`
the source checks `signal.aborted` and throws `new Error('AbortError')` - an
`Error` whose NAME is "Error" and whose MESSAGE is "AbortError" - and then
awaits `wait(5000)`, which always elapses in full. -/
def loop (env : FetchEnv) (total n : Nat) : Nat → Nat → List Question → LoopRes
  | i, 0, acc => ⟨[], .success acc, signalAbortedAt env.abort i (i - 1)⟩
  | i, fuel + 1, acc =>
    if signalAbortedAt env.abort i i then
      ⟨[], .thrown "AbortError" fetchAbortMessage, true⟩
    else
      let amt := amountInThisRequest total n i
      if env.abort = .atFetch i then
        ⟨[.request i amt], .thrown "AbortError" fetchAbortMessage,
          signalAbortedAt env.abort (i + 1) i⟩
      else
        match env.net i with
        | .fail status =>
          ⟨[.request i amt], .thrown "Error" ("HTTP error! status: " ++ toString status),
            signalAbortedAt env.abort (i + 1) i⟩
        | .jsonFail msg =>
          ⟨[.request i amt], .thrown "SyntaxError" msg,
            signalAbortedAt env.abort (i + 1) i⟩
        | .ok code results =>
          if code ≠ 0 then
            ⟨[.request i amt], .thrown "Error" ("Trivia API Error Code: " ++ toString code),
              signalAbortedAt env.abort (i + 1) i⟩
          else
            let acc2 := acc ++ results.map decodeQuestion
            if i < n - 1 then
              if signalAbortedAt env.abort (i + 1) i then
                ⟨[.request i amt], .thrown "Error" "AbortError", true⟩
              else
                let r := loop env total n (i + 1) fuel acc2
                ⟨.request i amt :: .delay 5000 :: r.events, r.outcome, r.finalAborted⟩
            else
              let r := loop env total n (i + 1) fuel acc2
              ⟨.request i amt :: r.events, r.outcome, r.finalAborted⟩

/-- Result of one run of `fetchData`: the hook state after the run, the
storage after the run, and the event trace. -/
structure RunResult where
  state : HookState
  store : Store
  events : List Event
deriving Repr, DecidableEq

/-- The cache key: `triviaDataCache_` followed by the requested total. -/
def cacheKey (totalAmount : Nat) : String :=
  "triviaDataCache_" ++ toString totalAmount

/-- Embedding of `fetchData` from step 2 on (after the cache check):
`setLoading(true)`, `setError(null)`, the batch loop, then on success the
cache write (`setItem` before `setQuestions`, both inside the `try`) and on
a throw the catch block (silent iff the name is "AbortError"), and the
`finally` block (`setLoading(false)` unless `signal.aborted`). -/
def fetchFresh (total : Nat) (env : FetchEnv) (st : HookState) (store : Store) : RunResult :=
  let st1 : HookState := { st with loading := true, error := none }
  let n := numRequests total
  let r := loop env total n 0 n []
  match r.outcome with
  | .success acc =>
    match env.putFail with
    | some e =>
      let st2 := if e.name = "AbortError" then st1 else { st1 with error := some e.message }
      let st3 := if r.finalAborted then st2 else { st2 with loading := false }
      ⟨st3, store, r.events⟩
    | none =>
      let store2 := insertStore store (cacheKey total) (.list acc)
      let st2 := { st1 with questions := acc }
      let st3 := if r.finalAborted then st2 else { st2 with loading := false }
      ⟨st3, store2, r.events ++ [.cacheWrite (cacheKey total)]⟩
  | .thrown nm msg =>
    let st2 := if nm = "AbortError" then st1 else { st1 with error := some msg }
    let st3 := if r.finalAborted then st2 else { st2 with loading := false }
    ⟨st3, store, r.events⟩

/-- Embedding of one full execution of `fetchData` (source lines 73-158):
the cache check first - a stored value that parses to a non-empty array is
published with `loading := false` and the run stops (note: `error` is NOT
touched on this path); a corrupt value is removed and the run proceeds as a
miss; an empty string or an empty array also proceed as a miss - then the
fresh fetch. -/
def fetchData (total : Nat) (env : FetchEnv) (st : HookState) (store : Store) : RunResult :=
  let key := cacheKey total
  match lookupStore store key with
  | some (.list qs) =>
    if qs.length > 0 then ⟨{ st with questions := qs, loading := false }, store, []⟩
    else fetchFresh total env st store
  | some .corrupt =>
    let r := fetchFresh total env st (removeStore store key)
    ⟨r.state, r.store, .cacheRemove key :: r.events⟩
  | some .emptyString => fetchFresh total env st store
  | none => fetchFresh total env st store

/-- Successive executions of the effect (mount and every change of
`totalAmount`), threading the React state and the storage.  Aborting a run
that has already completed is a no-op, and a run aborted mid-flight performs
no state update after the abort, so consecutive runs compose sequentially. -/
def runSequence : HookState → Store → List (Nat × FetchEnv) → HookState × Store
  | st, store, [] => (st, store)
  | st, store, (t, env) :: rest =>
    let r := fetchData t env st store
    runSequence r.state r.store rest

/-! ### Derived notions used by the claims -/

/-- The batch plan as a list: the `amountInThisRequest` values for
`i = 0, ..., fuel - 1` starting at `i`. -/
def planAux (total n : Nat) : Nat → Nat → List Nat
  | _, 0 => []
  | i, fuel + 1 => amountInThisRequest total n i :: planAux total n (i + 1) fuel

/-- The request plan of a total: the ordered batch sizes the loop requests. -/
def requestPlan (total : Nat) : List Nat :=
  planAux total (numRequests total) 0 (numRequests total)

/-- Sum of the batch sizes for `fuel` batches starting at index `i`. -/
def sumAm (total n : Nat) : Nat → Nat → Nat
  | _, 0 => 0
  | i, fuel + 1 => amountInThisRequest total n i + sumAm total n (i + 1) fuel

/-- Concatenation of `fuel` per-batch lists starting at batch `i`; batch `j`
precedes batch `j + 1`. -/
def concatBatches (f : Nat → List Question) : Nat → Nat → List Question
  | _, 0 => []
  | i, fuel + 1 => f i ++ concatBatches f (i + 1) fuel

/-- The event trace of `fuel` fully successful iterations starting at
iteration `i`: each request followed by the inter-batch delay except after
the final batch. -/
def happyEvents (total n : Nat) : Nat → Nat → List Event
  | _, 0 => []
  | i, fuel + 1 =>
    if i < n - 1 then
      .request i (amountInThisRequest total n i) :: .delay 5000 ::
        happyEvents total n (i + 1) fuel
    else
      .request i (amountInThisRequest total n i) :: happyEvents total n (i + 1) fuel

/-- The event trace of `c` iterations starting at `i` that each complete and
then run the full inter-batch delay. -/
def waitRunEvents (total n : Nat) : Nat → Nat → List Event
  | _, 0 => []
  | i, c + 1 =>
    .request i (amountInThisRequest total n i) :: .delay 5000 ::
      waitRunEvents total n (i + 1) c

/-- An event is a network request. -/
def isRequestEvent : Event → Bool
  | .request _ _ => true
  | _ => false

/-- Number of observable activity indicators of a snapshot: loading set,
error non-null, data present. -/
def activeCount (st : HookState) : Nat :=
  (if st.loading then 1 else 0) + (if st.error.isSome then 1 else 0) +
    (if st.questions.isEmpty then 0 else 1)

/-- Exactly one of loading / error / populated data holds. -/
def exactlyOneActive (st : HookState) : Prop := activeCount st = 1

instance (st : HookState) : Decidable (exactlyOneActive st) := by
  unfold exactlyOneActive; infer_instance

/-- The message of the `Error` a validated response makes the loop throw,
`none` when the response passes validation. -/
def throwOf : TransportResult → Option String
  | .fail status => some ("HTTP error! status: " ++ toString status)
  | .jsonFail msg => some msg
  | .ok code _ => if code ≠ 0 then some ("Trivia API Error Code: " ++ toString code) else none

/-- The `name` of the `Error` a failing response makes the loop throw. -/
def throwNameOf : TransportResult → String
  | .fail _ => "Error"
  | .jsonFail _ => "SyntaxError"
  | .ok _ _ => "Error"

/-! ### Sample data for concrete runs -/

/-- A plain, entity-free sample question. -/
def q1 : Question := ⟨"Science", "multiple", "easy", "Q1", "A1", ["B1", "C1"]⟩

/-- A second plain sample question. -/
def q2 : Question := ⟨"History", "boolean", "hard", "Q2", "A2", ["B2"]⟩

example : decodeQuestion q1 = q1 := by decide
example : requestPlan 80 = [50, 30] := by decide
example : numRequests 80 = 2 := by decide

/-! ### Helper lemmas about the signal -/

lemma signalAborted_exit (env : FetchEnv) (i : Nat)
    (hclean : signalAbortedAt env.abort i i = false) :
    signalAbortedAt env.abort i (i - 1) = false := by
  cases h : env.abort with
  | never => rfl
  | atFetch j => rw [h] at hclean; exact hclean
  | atWait j =>
    rw [h] at hclean
    simp only [signalAbortedAt, decide_eq_false_iff_not] at hclean ⊢
    omega

lemma signalAborted_step (env : FetchEnv) (i : Nat)
    (hclean : signalAbortedAt env.abort i i = false)
    (hnf : env.abort ≠ .atFetch i) :
    signalAbortedAt env.abort (i + 1) i = false := by
  cases h : env.abort with
  | never => rfl
  | atFetch j =>
    rw [h] at hclean hnf
    have hji : j ≠ i := fun he => hnf (by rw [he])
    simp only [signalAbortedAt, decide_eq_false_iff_not] at hclean ⊢
    omega
  | atWait j => rw [h] at hclean; exact hclean

lemma signalAborted_next (env : FetchEnv) (i : Nat)
    (hclean : signalAbortedAt env.abort i i = false)
    (hnf : env.abort ≠ .atFetch i) (hnw : env.abort ≠ .atWait i) :
    signalAbortedAt env.abort (i + 1) (i + 1) = false := by
  cases h : env.abort with
  | never => rfl
  | atFetch j =>
    rw [h] at hclean hnf
    have hji : j ≠ i := fun he => hnf (by rw [he])
    simp only [signalAbortedAt, decide_eq_false_iff_not] at hclean ⊢
    omega
  | atWait j =>
    rw [h] at hclean hnw
    have hji : j ≠ i := fun he => hnw (by rw [he])
    simp only [signalAbortedAt, decide_eq_false_iff_not] at hclean ⊢
    omega

/-! ### The fully successful loop -/

lemma loop_happy (env : FetchEnv) (total n : Nat) (batches : Nat → List Question)
    (habort : env.abort = .never) :
    ∀ fuel i acc, (∀ j, i ≤ j → j < i + fuel → env.net j = .ok 0 (batches j)) →
    loop env total n i fuel acc =
      ⟨happyEvents total n i fuel,
       .success (acc ++ concatBatches (fun j => (batches j).map decodeQuestion) i fuel),
       false⟩ := by
  intro fuel
  induction fuel with
  | zero =>
    intro i acc _
    simp [loop, habort, signalAbortedAt, happyEvents, concatBatches]
  | succ fuel ih =>
    intro i acc hnet
    have hi : env.net i = .ok 0 (batches i) := hnet i le_rfl (by omega)
    have hrec := ih (i + 1) (acc ++ (batches i).map decodeQuestion)
      (fun j hj1 hj2 => hnet j (by omega) (by omega))
    simp only [loop, habort, signalAbortedAt, hi]
    by_cases hlt : i < n - 1
    · simp [hlt, hrec, happyEvents, concatBatches]
    · simp [hlt, hrec, happyEvents, concatBatches]

lemma concatBatches_length (f : Nat → List Question) (total n : Nat) :
    ∀ fuel i, (∀ j, i ≤ j → j < i + fuel → (f j).length = amountInThisRequest total n j) →
    (concatBatches f i fuel).length = sumAm total n i fuel := by
  intro fuel
  induction fuel with
  | zero => intro i _; rfl
  | succ fuel ih =>
    intro i h
    simp only [concatBatches, sumAm, List.length_append]
    rw [h i le_rfl (by omega), ih (i + 1) (fun j h1 h2 => h j (by omega) (by omega))]

lemma sumAm_shape (total n : Nat) :
    ∀ fuel i, i + fuel = n → 0 < fuel →
    sumAm total n i fuel = 50 * (fuel - 1) + amountInThisRequest total n (n - 1) := by
  intro fuel
  induction fuel with
  | zero => intro i _ h; omega
  | succ fuel ih =>
    intro i hin _
    cases fuel with
    | zero =>
      have hi : i = n - 1 := by omega
      subst hi
      simp [sumAm]
    | succ fuel2 =>
      have hne : ¬(i = n - 1 ∧ total % 50 ≠ 0) := by omega
      rw [sumAm, amountInThisRequest, if_neg hne, ih (i + 1) (by omega) (by omega)]
      omega

lemma sumAm_total (total : Nat) (ht : 0 < total) :
    sumAm total (numRequests total) 0 (numRequests total) = total := by
  have hn : 0 < numRequests total := by unfold numRequests; omega
  rw [sumAm_shape total (numRequests total) (numRequests total) 0 (by omega) hn]
  unfold amountInThisRequest numRequests
  by_cases h : total % 50 = 0
  · rw [if_neg (fun hx => hx.2 h)]
    omega
  · rw [if_pos ⟨rfl, h⟩]
    omega

/-! ### The request plan -/

lemma planAux_shape (total n : Nat) :
    ∀ fuel i, i + fuel = n → 0 < fuel →
    planAux total n i fuel =
      List.replicate (fuel - 1) 50 ++ [amountInThisRequest total n (n - 1)] := by
  intro fuel
  induction fuel with
  | zero => intro i _ h; omega
  | succ fuel ih =>
    intro i hin _
    cases fuel with
    | zero =>
      have hi : i = n - 1 := by omega
      subst hi
      simp [planAux]
    | succ fuel2 =>
      have hne : ¬(i = n - 1 ∧ total % 50 ≠ 0) := by omega
      rw [planAux, amountInThisRequest, if_neg hne, ih (i + 1) (by omega) (by omega)]
      simp [List.replicate_succ]

lemma planAux_sum (total n : Nat) :
    ∀ fuel i, (planAux total n i fuel).sum = sumAm total n i fuel := by
  intro fuel
  induction fuel with
  | zero => intro i; rfl
  | succ fuel ih => intro i; simp [planAux, sumAm, ih]

lemma planAux_length (total n : Nat) :
    ∀ fuel i, (planAux total n i fuel).length = fuel := by
  intro fuel
  induction fuel with
  | zero => intro i; rfl
  | succ fuel ih => intro i; simp [planAux, ih]

/-! ### Event traces -/

lemma happyEvents_countP (total n : Nat) :
    ∀ fuel i, (happyEvents total n i fuel).countP isRequestEvent = fuel := by
  intro fuel
  induction fuel with
  | zero => intro i; rfl
  | succ fuel ih =>
    intro i
    by_cases h : i < n - 1 <;>
      simp [happyEvents, h, List.countP_cons, ih, isRequestEvent]

lemma waitRunEvents_mem (total n : Nat) :
    ∀ c i e, e ∈ waitRunEvents total n i c →
      (∃ j a, e = .request j a ∧ i ≤ j ∧ j < i + c) ∨ e = .delay 5000 := by
  intro c
  induction c with
  | zero => intro i e h; simp [waitRunEvents] at h
  | succ c ih =>
    intro i e h
    simp only [waitRunEvents, List.mem_cons] at h
    rcases h with h | h | h
    · exact .inl ⟨i, _, h, le_rfl, by omega⟩
    · exact .inr h
    · rcases ih (i + 1) e h with ⟨j, a, he, h1, h2⟩ | h
      · exact .inl ⟨j, a, he, by omega, by omega⟩
      · exact .inr h

/-! ### Aborted and failing loops -/

lemma loop_abort_atFetch (env : FetchEnv) (total n k : Nat) (batches : Nat → List Question)
    (habort : env.abort = .atFetch k)
    (hnet : ∀ j, j < k → env.net j = .ok 0 (batches j)) :
    ∀ fuel i acc, i + fuel = n → i ≤ k → k < n →
    loop env total n i fuel acc =
      ⟨waitRunEvents total n i (k - i) ++ [.request k (amountInThisRequest total n k)],
       .thrown "AbortError" fetchAbortMessage, true⟩ := by
  intro fuel
  induction fuel with
  | zero => intro i acc h1 h2 h3; omega
  | succ fuel ih =>
    intro i acc hin hik hkn
    have hpre : signalAbortedAt env.abort i i = false := by
      rw [habort]; simp only [signalAbortedAt, decide_eq_false_iff_not]; omega
    rcases Nat.lt_or_ge i k with hlt | hge
    · have hi : env.net i = .ok 0 (batches i) := hnet i hlt
      have hnf : ¬(env.abort = AbortTime.atFetch i) := by
        rw [habort]; intro h; injection h with h2; omega
      have h133 : signalAbortedAt env.abort (i + 1) i = false := by
        rw [habort]; simp only [signalAbortedAt, decide_eq_false_iff_not]; omega
      have hwait : i < n - 1 := by omega
      have hks : k - i = (k - (i + 1)) + 1 := by omega
      rw [hks, waitRunEvents]
      simp only [loop, hpre, hi]
      simp only [hnf, if_false, h133, hwait, if_true]
      simp [ih (i + 1) (acc ++ (batches i).map decodeQuestion) (by omega) (by omega) hkn]
    · have hik2 : i = k := by omega
      subst hik2
      simp only [loop, hpre]
      simp [habort, signalAbortedAt, waitRunEvents]

lemma loop_abort_atWait (env : FetchEnv) (total n k : Nat) (batches : Nat → List Question)
    (habort : env.abort = .atWait k)
    (hnet : ∀ j, j ≤ k → env.net j = .ok 0 (batches j)) :
    ∀ fuel i acc, i + fuel = n → i ≤ k → k + 1 < n →
    loop env total n i fuel acc =
      ⟨waitRunEvents total n i (k + 1 - i), .thrown "AbortError" fetchAbortMessage, true⟩ := by
  intro fuel
  induction fuel with
  | zero => intro i acc h1 h2 h3; omega
  | succ fuel ih =>
    intro i acc hin hik hkn
    have hpre : signalAbortedAt env.abort i i = false := by
      rw [habort]; simp only [signalAbortedAt, decide_eq_false_iff_not]; omega
    have hi : env.net i = .ok 0 (batches i) := hnet i hik
    have hnf : ¬(env.abort = AbortTime.atFetch i) := by rw [habort]; intro h; injection h
    have h133 : signalAbortedAt env.abort (i + 1) i = false := by
      rw [habort]; simp only [signalAbortedAt, decide_eq_false_iff_not]; omega
    have hwait : i < n - 1 := by omega
    have hks : k + 1 - i = (k + 1 - (i + 1)) + 1 := by omega
    rw [hks, waitRunEvents]
    simp only [loop, hpre, hi]
    simp only [hnf, if_false, h133, hwait, if_true]
    rcases Nat.lt_or_ge i k with hlt | hge
    · simp [ih (i + 1) (acc ++ (batches i).map decodeQuestion) (by omega) (by omega) hkn]
    · have hik2 : i = k := by omega
      subst hik2
      cases fuel with
      | zero => omega
      | succ fuel2 =>
        have hpre2 : signalAbortedAt env.abort (i + 1) (i + 1) = true := by
          rw [habort]; simp [signalAbortedAt]
        simp [loop, hpre2, waitRunEvents]

lemma loop_fail_at (env : FetchEnv) (total n jf : Nat) (batches : Nat → List Question)
    (m : String) (habort : env.abort = .never)
    (hnet : ∀ j2, j2 < jf → env.net j2 = .ok 0 (batches j2))
    (hfail : throwOf (env.net jf) = some m) :
    ∀ fuel i acc, i + fuel = n → i ≤ jf → jf < n →
    loop env total n i fuel acc =
      ⟨waitRunEvents total n i (jf - i) ++ [.request jf (amountInThisRequest total n jf)],
       .thrown (throwNameOf (env.net jf)) m, false⟩ := by
  intro fuel
  induction fuel with
  | zero => intro i acc h1 h2 h3; omega
  | succ fuel ih =>
    intro i acc hin hik hkn
    rcases Nat.lt_or_ge i jf with hlt | hge
    · have hi : env.net i = .ok 0 (batches i) := hnet i hlt
      have hwait : i < n - 1 := by omega
      have hks : jf - i = (jf - (i + 1)) + 1 := by omega
      rw [hks, waitRunEvents]
      simp only [loop, habort, signalAbortedAt, hi]
      simp only [hwait, if_true]
      simp [ih (i + 1) (acc ++ (batches i).map decodeQuestion) (by omega) (by omega) hkn,
        habort]
    · have hik2 : i = jf := by omega
      subst hik2
      cases hni : env.net i with
      | fail status =>
        rw [hni] at hfail
        simp only [throwOf, Option.some.injEq] at hfail
        simp [loop, habort, signalAbortedAt, hni, throwNameOf, waitRunEvents, hfail]
      | jsonFail msg =>
        rw [hni] at hfail
        simp only [throwOf, Option.some.injEq] at hfail
        simp [loop, habort, signalAbortedAt, hni, throwNameOf, waitRunEvents, hfail]
      | ok code results =>
        rw [hni] at hfail
        simp only [throwOf] at hfail
        by_cases hc : code = 0
        · simp [hc] at hfail
        · rw [if_pos hc] at hfail
          simp only [Option.some.injEq] at hfail
          simp [loop, habort, signalAbortedAt, hni, throwNameOf, waitRunEvents, hfail, hc]

/-! ### Case analysis of an arbitrary loop run

For any environment whose successful responses carry exactly the requested
amount of records, a loop entered with a not-yet-aborted signal ends in one
of three shapes: full success with `signal.aborted` still false and the
accumulator grown by the sum of the batch sizes; a caught error named
"AbortError" with `signal.aborted` true; or a caught error with another name
and `signal.aborted` false.  In particular the `signal.aborted` check before
the delay (`throw new Error('AbortError')`, whose name would be "Error")
never fires: at that point the signal state equals the state already checked
before the fetch of the same iteration. -/

lemma loop_cases (env : FetchEnv) (total n : Nat)
    (hconf : ∀ j code results, j < n → env.net j = .ok code results →
      results.length = amountInThisRequest total n j) :
    ∀ fuel i acc, i + fuel = n →
    signalAbortedAt env.abort i i = false →
    (∃ qs, (loop env total n i fuel acc).outcome = .success qs ∧
      (loop env total n i fuel acc).finalAborted = false ∧
      qs.length = acc.length + sumAm total n i fuel)
    ∨ (∃ m, (loop env total n i fuel acc).outcome = .thrown "AbortError" m ∧
      (loop env total n i fuel acc).finalAborted = true)
    ∨ (∃ nm m, (loop env total n i fuel acc).outcome = .thrown nm m ∧
      nm ≠ "AbortError" ∧ (loop env total n i fuel acc).finalAborted = false) := by
  intro fuel
  induction fuel with
  | zero =>
    intro i acc _ hclean
    exact .inl ⟨acc, rfl, signalAborted_exit env i hclean, rfl⟩
  | succ fuel ih =>
    intro i acc hin hclean
    by_cases haf : env.abort = AbortTime.atFetch i
    · refine .inr (.inl ⟨fetchAbortMessage, ?_, ?_⟩) <;>
        simp [loop, hclean, haf, signalAbortedAt]
    · have hstep : signalAbortedAt env.abort (i + 1) i = false :=
        signalAborted_step env i hclean haf
      cases hni : env.net i with
      | fail status =>
        refine .inr (.inr ⟨"Error", "HTTP error! status: " ++ toString status,
          ?_, by decide, ?_⟩) <;>
          simp [loop, hclean, haf, hni, hstep]
      | jsonFail msg =>
        refine .inr (.inr ⟨"SyntaxError", msg, ?_, by decide, ?_⟩) <;>
          simp [loop, hclean, haf, hni, hstep]
      | ok code results =>
        by_cases hc : code = 0
        · subst hc
          have hlen : results.length = amountInThisRequest total n i :=
            hconf i 0 results (by omega) hni
          by_cases hw : i < n - 1
          · by_cases hawi : env.abort = AbortTime.atWait i
            · cases fuel with
              | zero => omega
              | succ fuel2 =>
                have hpre2 : signalAbortedAt env.abort (i + 1) (i + 1) = true := by
                  rw [hawi]; simp [signalAbortedAt]
                refine .inr (.inl ⟨fetchAbortMessage, ?_, ?_⟩) <;>
                  simp [loop, hclean, haf, hni, hstep, hw, hpre2]
            · have hclean2 : signalAbortedAt env.abort (i + 1) (i + 1) = false :=
                signalAborted_next env i hclean haf hawi
              rcases ih (i + 1) (acc ++ results.map decodeQuestion) (by omega) hclean2 with
                ⟨qs, ho, hf, hl⟩ | ⟨m, ho, hf⟩ | ⟨nm, m, ho, hnm, hf⟩
              · refine .inl ⟨qs, ?_, ?_, ?_⟩ <;>
                  simp [loop, hclean, haf, hni, hstep, hw, ho, hf, hl, sumAm, hlen]
                omega
              · refine .inr (.inl ⟨m, ?_, ?_⟩) <;>
                  simp [loop, hclean, haf, hni, hstep, hw, ho, hf]
              · refine .inr (.inr ⟨nm, m, ?_, hnm, ?_⟩) <;>
                  simp [loop, hclean, haf, hni, hstep, hw, ho, hf]
          · have hf0 : fuel = 0 := by omega
            subst hf0
            refine .inl ⟨acc ++ results.map decodeQuestion, ?_, ?_, ?_⟩ <;>
              simp [loop, hclean, haf, hni, hstep, hw, sumAm, hlen]
        · refine .inr (.inr ⟨"Error", "Trivia API Error Code: " ++ toString code,
            ?_, by decide, ?_⟩) <;>
          simp [loop, hclean, haf, hni, hstep, hc]

/-! ### Storage lemmas -/

lemma lookup_removeStore (store : Store) (key : String) :
    lookupStore (removeStore store key) key = none := by
  induction store with
  | nil => rfl
  | cons p rest ih =>
    by_cases h : p.1 = key
    · simpa [removeStore, List.filter, h] using ih
    · simpa [removeStore, List.filter, h, lookupStore] using ih

lemma cacheWrite_not_mem_waitRun (total n c i : Nat) (key : String) :
    Event.cacheWrite key ∉ waitRunEvents total n i c := by
  intro h
  rcases waitRunEvents_mem total n c i _ h with ⟨j, a, he, _, _⟩ | he <;> simp at he

lemma request_ge_not_mem_waitRun (total n c i r a : Nat) (hr : i + c ≤ r) :
    Event.request r a ∉ waitRunEvents total n i c := by
  intro h
  rcases waitRunEvents_mem total n c i _ h with ⟨j, b, he, h1, h2⟩ | he
  · injection he with h3 h4; omega
  · simp at he

lemma amount_le_50 (total n i : Nat) : amountInThisRequest total n i ≤ 50 := by
  unfold amountInThisRequest
  split <;> omega

/-! ## The claims -/

/-- C1: for every successful run of the fetch pipeline with requested total
greater than zero (a cache miss, no cancellation, every response a success
carrying exactly the requested amount of records, and a succeeding cache
write), the published questions sequence is the concatenation of the decoded
batches in arrival order - every record of batch `i` precedes every record
of batch `i + 1` - and its length is exactly the requested total. -/
theorem C1_success_assembly (total : Nat) (htotal : 0 < total)
    (env : FetchEnv) (batches : Nat → List Question) (store : Store)
    (hmiss : lookupStore store (cacheKey total) = none)
    (habort : env.abort = .never) (hput : env.putFail = none)
    (hnet : ∀ i, i < numRequests total → env.net i = .ok 0 (batches i))
    (hlen : ∀ i, i < numRequests total →
      (batches i).length = amountInThisRequest total (numRequests total) i) :
    (fetchData total env initState store).state.questions =
      concatBatches (fun j => (batches j).map decodeQuestion) 0 (numRequests total)
    ∧ (fetchData total env initState store).state.questions.length = total := by
  have hloop := loop_happy env total (numRequests total) batches habort
    (numRequests total) 0 [] (fun j h1 h2 => hnet j (by omega))
  have hlen2 : (concatBatches (fun j => (batches j).map decodeQuestion) 0
      (numRequests total)).length = total := by
    rw [concatBatches_length _ total (numRequests total) (numRequests total) 0
      (fun j h1 h2 => by
        simp only [List.length_map]
        exact hlen j (by omega))]
    exact sumAm_total total htotal
  constructor
  · simp [fetchData, hmiss, fetchFresh, hloop, hput]
  · simp [fetchData, hmiss, fetchFresh, hloop, hput, hlen2]

/-- Concrete environment for the C1 witness: one batch of two questions. -/
def envC1 : FetchEnv := ⟨fun _ => .ok 0 [q1, q2], .never, none⟩

/-- Concrete batch family for the C1 witness. -/
def batchesC1 : Nat → List Question := fun _ => [q1, q2]

theorem C1_success_assembly_witness :
    (fetchData 2 envC1 initState []).state.questions.length = 2 := by
  exact (C1_success_assembly 2 (by decide) envC1 batchesC1 [] rfl rfl rfl
    (fun i _ => rfl)
    (fun i hi => by
      have h0 : i = 0 := by simp [numRequests] at hi; omega
      subst h0; decide)).2

/-- C2: for every requested total greater than zero, the batch plan has
exactly `ceil(total / 50)` entries (written `(total + 49) / 50`), every
batch size except the last is 50, the last is `total mod 50` when the total
is not a multiple of 50 and 50 otherwise, every size is at most 50, the
sizes sum to the total, the plan for 80 is `[50, 30]`, and a fully
successful run issues exactly `ceil(total / 50)` network requests. -/
theorem C2_request_plan (total : Nat) (htotal : 0 < total) :
    numRequests total = (total + 49) / 50
    ∧ (requestPlan total).length = numRequests total
    ∧ (requestPlan total).sum = total
    ∧ (∀ a, a ∈ requestPlan total → a ≤ 50)
    ∧ (requestPlan total).dropLast = List.replicate (numRequests total - 1) 50
    ∧ (total % 50 ≠ 0 → (requestPlan total).getLast? = some (total % 50))
    ∧ (total % 50 = 0 → (requestPlan total).getLast? = some 50)
    ∧ requestPlan 80 = [50, 30]
    ∧ (∀ (env : FetchEnv) (store : Store) (batches : Nat → List Question),
        lookupStore store (cacheKey total) = none →
        env.abort = .never →
        (∀ i, i < numRequests total → env.net i = TransportResult.ok 0 (batches i)) →
        (fetchData total env initState store).events.countP isRequestEvent
          = numRequests total) := by
  have hn : 0 < numRequests total := by unfold numRequests; omega
  have hshape := planAux_shape total (numRequests total) (numRequests total) 0
    (by omega) hn
  refine ⟨rfl, ?_, ?_, ?_, ?_, ?_, ?_, by decide, ?_⟩
  · rw [requestPlan, planAux_length]
  · rw [requestPlan, planAux_sum]
    exact sumAm_total total htotal
  · intro a ha
    rw [requestPlan, hshape] at ha
    rcases List.mem_append.mp ha with h | h
    · rw [List.eq_of_mem_replicate h]
    · rw [List.mem_singleton.mp h]
      exact amount_le_50 total (numRequests total) (numRequests total - 1)
  · rw [requestPlan, hshape, List.dropLast_concat]
  · intro hmod
    rw [requestPlan, hshape, List.getLast?_concat, amountInThisRequest,
      if_pos ⟨rfl, hmod⟩]
  · intro hmod
    rw [requestPlan, hshape, List.getLast?_concat, amountInThisRequest,
      if_neg (fun hx => hx.2 hmod)]
  · intro env store batches hmiss habort hnet
    have hloop := loop_happy env total (numRequests total) batches habort
      (numRequests total) 0 [] (fun j h1 h2 => hnet j (by omega))
    cases hput : env.putFail with
    | none =>
      simp [fetchData, hmiss, fetchFresh, hloop, hput, List.countP_append,
        happyEvents_countP, isRequestEvent, List.countP_cons]
    | some e =>
      simp [fetchData, hmiss, fetchFresh, hloop, hput, happyEvents_countP]

theorem C2_request_plan_witness : requestPlan 80 = [50, 30] :=
  (C2_request_plan 80 (by decide)).2.2.2.2.2.2.2.1

/-- C3: for every run reaching the orchestrator (cache miss) in which the
cancellation fires while a batch is in flight (`atFetch k`, every earlier
batch successful) or during an inter-batch delay (`atWait k`, every batch up
to `k` successful), the run publishes no error (`error` is reset to null at
the start of the fetch and never set afterwards), the storage is untouched -
in particular no cache write occurs - and no request for the following batch
is issued.  In the claim's indexing, abort during the delay after batch `k`
is a cancellation before batch `k + 1` completes, and the conclusion rules
out even the request for batch `k + 1` itself, hence also `k + 2`. -/
theorem C3_cancellation_silent (total : Nat)
    (env : FetchEnv) (st : HookState) (store : Store) (k : Nat)
    (batches : Nat → List Question)
    (hmiss : lookupStore store (cacheKey total) = none)
    (habort :
      (env.abort = .atFetch k ∧ k < numRequests total ∧
        ∀ j, j < k → env.net j = .ok 0 (batches j))
      ∨ (env.abort = .atWait k ∧ k + 1 < numRequests total ∧
        ∀ j, j ≤ k → env.net j = .ok 0 (batches j))) :
    (fetchData total env st store).state.error = none
    ∧ (fetchData total env st store).store = store
    ∧ (∀ key2, Event.cacheWrite key2 ∉ (fetchData total env st store).events)
    ∧ (∀ a, Event.request (k + 1) a ∉ (fetchData total env st store).events) := by
  rcases habort with ⟨hab, hk, hnet⟩ | ⟨hab, hk, hnet⟩
  · have hloop := loop_abort_atFetch env total (numRequests total) k batches hab hnet
      (numRequests total) 0 [] (by omega) (by omega) hk
    refine ⟨?_, ?_, ?_, ?_⟩
    · simp [fetchData, hmiss, fetchFresh, hloop]
    · simp [fetchData, hmiss, fetchFresh, hloop]
    · intro key2
      simp only [fetchData, hmiss, fetchFresh, hloop]
      intro hmem
      rcases List.mem_append.mp hmem with h | h
      · exact cacheWrite_not_mem_waitRun total (numRequests total) (k - 0) 0 key2 h
      · simp at h
    · intro a
      simp only [fetchData, hmiss, fetchFresh, hloop]
      intro hmem
      rcases List.mem_append.mp hmem with h | h
      · exact request_ge_not_mem_waitRun total (numRequests total) (k - 0) 0 (k + 1) a
          (by omega) h
      · simp only [List.mem_singleton, Event.request.injEq] at h
        omega
  · have hloop := loop_abort_atWait env total (numRequests total) k batches hab hnet
      (numRequests total) 0 [] (by omega) (by omega) hk
    refine ⟨?_, ?_, ?_, ?_⟩
    · simp [fetchData, hmiss, fetchFresh, hloop]
    · simp [fetchData, hmiss, fetchFresh, hloop]
    · intro key2
      simp only [fetchData, hmiss, fetchFresh, hloop]
      exact cacheWrite_not_mem_waitRun total (numRequests total) (k + 1 - 0) 0 key2
    · intro a
      simp only [fetchData, hmiss, fetchFresh, hloop]
      exact request_ge_not_mem_waitRun total (numRequests total) (k + 1 - 0) 0 (k + 1) a
        (by omega)

/-- Concrete environment for the C3 witness: a two-batch total aborted while
request 0 is in flight. -/
def envC3 : FetchEnv := ⟨fun _ => .ok 0 [q1], .atFetch 0, none⟩

theorem C3_cancellation_silent_witness :
    (fetchData 80 envC3 initState []).state.error = none :=
  (C3_cancellation_silent 80 envC3 initState [] 0 (fun _ => [q1]) rfl
    (.inl ⟨rfl, by decide, fun j hj => absurd hj (Nat.not_lt_zero j)⟩)).1

/-- Environment with a single successful one-question batch. -/
def envOk1 : FetchEnv := ⟨fun _ => .ok 0 [q1], .never, none⟩

/-- Environment whose every request fails with HTTP status 500. -/
def envFail500 : FetchEnv := ⟨fun _ => .fail 500, .never, none⟩

/-- C4 counterexample: a successful run for total 1 publishes one question;
a following failed run for total 2 (status 500 on its first request) sets
the error and `loading := false` but does NOT clear the previously published
questions - the snapshot keeps the stale question next to the non-null
error, where the claim requires `questions` to be empty. -/
theorem C4_counterexample :
    (runSequence initState [] [(1, envOk1), (2, envFail500)]).1 =
      ⟨[q1], false, some "HTTP error! status: 500"⟩
    ∧ [q1] ≠ ([] : List Question) := by
  constructor <;> decide

/-- C4 (amended): for every run that fails with a transport error, a JSON
parse error, or an API rejection (no cancellation, cache miss), the
published snapshot has `loading = false` and `error =` the failure message,
nothing is written to the cache, and `questions` is left UNCHANGED from the
state at run start: on a fresh mount it is empty, but questions published by
an earlier run are not cleared. -/
theorem C4_failure_snapshot (total : Nat) (env : FetchEnv) (st : HookState)
    (store : Store) (jf : Nat) (batches : Nat → List Question) (m : String)
    (hmiss : lookupStore store (cacheKey total) = none)
    (habort : env.abort = .never)
    (hj : jf < numRequests total)
    (hnet : ∀ j2, j2 < jf → env.net j2 = .ok 0 (batches j2))
    (hfail : throwOf (env.net jf) = some m) :
    (fetchData total env st store).state.error = some m
    ∧ (fetchData total env st store).state.loading = false
    ∧ (fetchData total env st store).state.questions = st.questions
    ∧ (fetchData total env st store).store = store
    ∧ (∀ key2, Event.cacheWrite key2 ∉ (fetchData total env st store).events) := by
  have hloop := loop_fail_at env total (numRequests total) jf batches m habort hnet hfail
    (numRequests total) 0 [] (by omega) (by omega) hj
  have hname : throwNameOf (env.net jf) ≠ "AbortError" := by
    cases h : env.net jf <;> simp [throwNameOf]
  refine ⟨?_, ?_, ?_, ?_, ?_⟩
  · simp [fetchData, hmiss, fetchFresh, hloop, hname]
  · simp [fetchData, hmiss, fetchFresh, hloop, hname]
  · simp [fetchData, hmiss, fetchFresh, hloop, hname]
  · simp [fetchData, hmiss, fetchFresh, hloop, hname]
  · intro key2
    simp only [fetchData, hmiss, fetchFresh, hloop]
    intro hmem
    rcases List.mem_append.mp hmem with h | h
    · exact cacheWrite_not_mem_waitRun total (numRequests total) (jf - 0) 0 key2 h
    · simp at h

theorem C4_failure_snapshot_witness :
    (fetchData 1 envFail500 initState []).state.error =
      some "HTTP error! status: 500" :=
  (C4_failure_snapshot 1 envFail500 initState [] 0 (fun _ => [])
    "HTTP error! status: 500" rfl rfl (by decide)
    (fun j hj => absurd hj (Nat.not_lt_zero j)) rfl).1

/-- C5 counterexample: the cache-hit path does not reset `error` (and does
not set `loading := true` first): after a failed run for total 2, a run for
total 1 that hits a pre-existing cache entry publishes the cached questions
with `loading = false` while the stale error of the failed run is still
non-null - populated data and a non-null error are simultaneously
observable, and the invariant "exactly one of loading / error / data" is
violated at a settled observation point. -/
theorem C5_counterexample :
    (runSequence initState [("triviaDataCache_1", CacheValue.list [q1])]
        [(2, envFail500), (1, envOk1)]).1 =
      ⟨[q1], false, some "HTTP error! status: 500"⟩
    ∧ ¬ exactlyOneActive
        (runSequence initState [("triviaDataCache_1", CacheValue.list [q1])]
          [(2, envFail500), (1, envOk1)]).1 := by
  constructor <;> decide

/-- C5 (amended): after a SINGLE run from the freshly mounted state (over
any store, any conforming environment - successful responses carry the
requested amount - and any storage failure that is not named "AbortError"),
exactly one of loading = true, error non-null, data populated holds.  The
claim fails only across runs, because the cache-hit path does not reset a
stale error (see the counterexample). -/
theorem C5_exactly_one (total : Nat) (htotal : 0 < total) (env : FetchEnv)
    (store : Store)
    (hconf : ∀ j code results, j < numRequests total →
      env.net j = .ok code results →
      results.length = amountInThisRequest total (numRequests total) j)
    (hput : ∀ e, env.putFail = some e → e.name ≠ "AbortError") :
    exactlyOneActive (fetchData total env initState store).state := by
  have hsig : signalAbortedAt env.abort 0 0 = false := by
    cases env.abort <;> simp [signalAbortedAt]
  have hfresh : ∀ store2, exactlyOneActive (fetchFresh total env initState store2).state := by
    intro store2
    rcases loop_cases env total (numRequests total) hconf (numRequests total) 0 []
      (by omega) hsig with ⟨qs, ho, hf, hl⟩ | ⟨m, ho, hf⟩ | ⟨nm, m, ho, hnm, hf⟩
    · rw [List.length_nil, Nat.zero_add, sumAm_total total htotal] at hl
      cases hput2 : env.putFail with
      | none =>
        have hq : qs.isEmpty = false := by
          cases qs with
          | nil => simp at hl; omega
          | cons a rest => rfl
        simp [fetchFresh, ho, hf, hput2, exactlyOneActive, activeCount, hq, initState]
      | some e =>
        have hname := hput e hput2
        simp [fetchFresh, ho, hf, hput2, hname, exactlyOneActive, activeCount, initState]
    · simp [fetchFresh, ho, hf, exactlyOneActive, activeCount, initState]
    · simp [fetchFresh, ho, hnm, hf, exactlyOneActive, activeCount, initState]
  cases hlook : lookupStore store (cacheKey total) with
  | none => simpa [fetchData, hlook] using hfresh store
  | some v =>
    cases v with
    | corrupt => simpa [fetchData, hlook] using hfresh (removeStore store (cacheKey total))
    | emptyString => simpa [fetchData, hlook] using hfresh store
    | list qs =>
      cases qs with
      | nil => simpa [fetchData, hlook] using hfresh store
      | cons a rest =>
        simp [fetchData, hlook, exactlyOneActive, activeCount, initState]

theorem C5_exactly_one_witness :
    exactlyOneActive (fetchData 1 envOk1 initState []).state := by
  exact C5_exactly_one 1 (by decide) envOk1 []
    (fun j code results hj hne => by
      have h0 : j = 0 := by simp [numRequests] at hj; omega
      subst h0
      simp only [envOk1] at hne
      injection hne with h1 h2
      subst h2
      decide)
    (fun e he => by simp [envOk1] at he)

lemma cacheWrite_not_mem_happy (total n : Nat) :
    ∀ fuel i key, Event.cacheWrite key ∉ happyEvents total n i fuel := by
  intro fuel
  induction fuel with
  | zero => intro i key h; simp [happyEvents] at h
  | succ fuel ih =>
    intro i key h
    by_cases hw : i < n - 1
    · simp only [happyEvents, if_pos hw, List.mem_cons] at h
      rcases h with h | h | h
      · exact Event.noConfusion h
      · exact Event.noConfusion h
      · exact ih (i + 1) key h
    · simp only [happyEvents, if_neg hw, List.mem_cons] at h
      rcases h with h | h
      · exact Event.noConfusion h
      · exact ih (i + 1) key h

/-- Environment whose run succeeds but whose final `setItem` throws a
quota error. -/
def envQuota : FetchEnv :=
  ⟨fun _ => .ok 0 [q1], .never, some ⟨"QuotaExceededError", "exceeded the quota"⟩⟩

/-- C6 counterexample: `sessionStorage.setItem` sits INSIDE the `try`,
before `setQuestions`.  When the cache write throws, the catch block runs:
the fully assembled questions are never published (`questions` stays empty),
and the storage error message is published as `error`.  The claim requires
the failure to be swallowed, the questions published and `error` to stay
null. -/
theorem C6_counterexample :
    (fetchData 1 envQuota initState []) =
      ⟨⟨[], false, some "exceeded the quota"⟩, [], [Event.request 0 1]⟩ := by
  decide

/-- C6 (amended): for every run that fetches all batches successfully but
whose final cache write throws an error not named "AbortError", the failure
is NOT swallowed: the run is caught by the generic error handler, the
assembled questions are not published (`questions` keeps its value from run
start), the storage error message is published as `error` with
`loading = false`, and no cache entry is written. -/
theorem C6_cache_write_failure (total : Nat) (env : FetchEnv) (st : HookState)
    (store : Store) (batches : Nat → List Question) (e : JsError)
    (hmiss : lookupStore store (cacheKey total) = none)
    (habort : env.abort = .never)
    (hnet : ∀ i, i < numRequests total → env.net i = .ok 0 (batches i))
    (hthrow : env.putFail = some e) (hname : e.name ≠ "AbortError") :
    (fetchData total env st store).state.error = some e.message
    ∧ (fetchData total env st store).state.questions = st.questions
    ∧ (fetchData total env st store).state.loading = false
    ∧ (fetchData total env st store).store = store
    ∧ (∀ key2, Event.cacheWrite key2 ∉ (fetchData total env st store).events) := by
  have hloop := loop_happy env total (numRequests total) batches habort
    (numRequests total) 0 [] (fun j h1 h2 => hnet j (by omega))
  refine ⟨?_, ?_, ?_, ?_, ?_⟩
  · simp [fetchData, hmiss, fetchFresh, hloop, hthrow, hname]
  · simp [fetchData, hmiss, fetchFresh, hloop, hthrow, hname]
  · simp [fetchData, hmiss, fetchFresh, hloop, hthrow, hname]
  · simp [fetchData, hmiss, fetchFresh, hloop, hthrow, hname]
  · intro key2
    simp only [fetchData, hmiss, fetchFresh, hloop, hthrow]
    exact cacheWrite_not_mem_happy total (numRequests total) (numRequests total) 0 key2

theorem C6_cache_write_failure_witness :
    (fetchData 1 envQuota initState []).state.error = some "exceeded the quota" :=
  (C6_cache_write_failure 1 envQuota initState [] (fun _ => [q1])
    ⟨"QuotaExceededError", "exceeded the quota"⟩ rfl rfl (fun i _ => rfl) rfl
    (by decide)).1

/-- A raw record whose `type` field carries an entity-encoded ampersand. -/
def qRawType : Question := ⟨"Cat", "A &amp; B", "easy", "Q", "A", ["B"]⟩

/-- Environment returning one record whose `type` field carries a raw
character reference. -/
def envC7 : FetchEnv := ⟨fun _ => .ok 0 [qRawType], .never, none⟩

/-- C7 counterexample: the decode map spreads the raw object and decodes
only `category`, `question`, `correct_answer` and `incorrect_answers`; the
`type` field is passed through raw.  A successful run whose response carries
`type = "A &amp; B"` publishes that raw entity-encoded text, which is not in
entity-free form: decoding it still changes it. -/
theorem C7_counterexample :
    ((fetchData 1 envC7 initState []).state.questions.map Question.type) =
      ["A &amp; B"]
    ∧ decodeHtml "A &amp; B" = "A & B"
    ∧ decodeHtml "A &amp; B" ≠ "A &amp; B" := by
  refine ⟨by decide, by decide, by decide⟩

/-- C7 (amended): every record published by a successful run is its raw
record with `category`, `question`, `correct_answer` and every element of
`incorrect_answers` replaced by their decoded forms, and with `type` (and
`difficulty`) passed through UNCHANGED - so raw entity-encoded text can
escape the orchestrator boundary through the `type` field, but never
through the four decoded fields. -/
theorem C7_decoded_fields (total : Nat) (env : FetchEnv)
    (batches : Nat → List Question) (store : Store)
    (hmiss : lookupStore store (cacheKey total) = none)
    (habort : env.abort = .never) (hput : env.putFail = none)
    (hnet : ∀ i, i < numRequests total → env.net i = .ok 0 (batches i)) :
    (fetchData total env initState store).state.questions =
      concatBatches (fun j => (batches j).map decodeQuestion) 0 (numRequests total)
    ∧ (∀ q : Question, decodeQuestion q =
        ⟨decodeHtml q.category, q.type, q.difficulty, decodeHtml q.question,
         decodeHtml q.correct_answer, q.incorrect_answers.map decodeHtml⟩) := by
  have hloop := loop_happy env total (numRequests total) batches habort
    (numRequests total) 0 [] (fun j h1 h2 => hnet j (by omega))
  constructor
  · simp [fetchData, hmiss, fetchFresh, hloop, hput]
  · intro q; rfl

theorem C7_decoded_fields_witness :
    decodeQuestion qRawType =
      ⟨decodeHtml qRawType.category, qRawType.type, qRawType.difficulty,
       decodeHtml qRawType.question, decodeHtml qRawType.correct_answer,
       qRawType.incorrect_answers.map decodeHtml⟩ :=
  (C7_decoded_fields 1 envC7 (fun _ => [qRawType]) [] rfl rfl rfl
    (fun _ _ => rfl)).2 qRawType

lemma decode_eq_of_not_contains :
    ∀ fuel l, containsRefAux fuel l = false → entityDecodeAux fuel l = l := by
  intro fuel
  induction fuel with
  | zero => intro l _; rfl
  | succ fuel ih =>
    intro l h
    cases l with
    | nil => rfl
    | cons c rest =>
      simp only [containsRefAux] at h
      simp only [entityDecodeAux]
      by_cases hc : c = '&'
      · rw [if_pos hc] at h ⊢
        have h2 := (Bool.or_eq_false_iff.mp h).2
        have h1 := (Bool.or_eq_false_iff.mp h).1
        have hp : parseRef rest = none := by
          cases hpr : parseRef rest with
          | none => rfl
          | some v => rw [hpr] at h1; simp at h1
        rw [hp, ih rest h2]
      · rw [if_neg hc] at h ⊢
        rw [ih rest h]

/-- C8: the modelled entity decoder is a pure total function on strings
(the totality the source wrapper guarantees through its catch-all fallback);
every input none of whose ampersands begins a decodable character reference
is returned unchanged - in particular any reference-free input; decoding
`"A &amp; B"` yields `"A & B"`; and malformed reference-like input (an
unknown name, bad digits after a numeric marker) is returned unchanged
rather than failing. -/
theorem C8_decoder :
    (∀ s, containsRef s = false → decodeHtml s = s)
    ∧ decodeHtml "A &amp; B" = "A & B"
    ∧ decodeHtml "&unknownname;" = "&unknownname;"
    ∧ decodeHtml "&#xZZ;" = "&#xZZ;"
    ∧ decodeHtml "A & B" = "A & B"
    ∧ decodeHtml "" = "" := by
  refine ⟨?_, by decide, by decide, by decide, by decide, by decide⟩
  intro s hs
  have h1 : entityDecodeAux s.data.length s.data = s.data :=
    decode_eq_of_not_contains s.data.length s.data hs
  unfold decodeHtml domTextContent
  rw [h1]
  obtain ⟨data⟩ := s
  simp

theorem C8_decoder_witness : decodeHtml "plain text" = "plain text" :=
  C8_decoder.1 "plain text" (by decide)

/-- Environment for C9: abort fires during the inter-batch delay after
batch 0 of a two-batch run. -/
def envC9 : FetchEnv := ⟨fun _ => .ok 0 [q1], .atWait 0, none⟩

/-- C9 counterexample: cancellation triggered while suspended in the
inter-batch delay does not terminate the delay early.  For total 51 with
abort during the delay after batch 0, the trace still ends with the full
`delay 5000` event - `wait` is a bare `setTimeout` promise that never
observes the signal - and the abort is noticed only afterwards, at the next
fetch call: request 1 is never issued, the run ends silently with the
initial state unchanged except that loading remains true. -/
theorem C9_counterexample :
    (fetchData 51 envC9 initState []).events =
      [Event.request 0 50, Event.delay 5000]
    ∧ (fetchData 51 envC9 initState []).state = ⟨[], true, none⟩ := by
  constructor <;> decide

/-- C9 (amended): cancellation is observed immediately before each network
call (a fetch on an already-aborted signal rejects at once, issuing no
request), and `signal.aborted` is additionally checked immediately BEFORE
each inter-batch delay - but the delay itself is not abortable: cancellation
fired during the delay after batch `k` lets the full 5000 ms elapse and
takes effect only at the next fetch call.  The trace is exactly iterations
`0..k`, each ending in a full `delay 5000`; no request `k + 1` is issued and
no error is published. -/
theorem C9_delay_not_abortable (total : Nat) (env : FetchEnv) (st : HookState)
    (store : Store) (k : Nat) (batches : Nat → List Question)
    (hmiss : lookupStore store (cacheKey total) = none)
    (habort : env.abort = .atWait k) (hk : k + 1 < numRequests total)
    (hnet : ∀ j, j ≤ k → env.net j = .ok 0 (batches j)) :
    (fetchData total env st store).events =
      waitRunEvents total (numRequests total) 0 (k + 1)
    ∧ Event.delay 5000 ∈ (fetchData total env st store).events
    ∧ (∀ a, Event.request (k + 1) a ∉ (fetchData total env st store).events)
    ∧ (fetchData total env st store).state.error = none := by
  have hloop := loop_abort_atWait env total (numRequests total) k batches habort hnet
    (numRequests total) 0 [] (by omega) (by omega) hk
  refine ⟨?_, ?_, ?_, ?_⟩
  · simp [fetchData, hmiss, fetchFresh, hloop]
  · simp [fetchData, hmiss, fetchFresh, hloop, waitRunEvents]
  · intro a
    simp only [fetchData, hmiss, fetchFresh, hloop]
    exact request_ge_not_mem_waitRun total (numRequests total) (k + 1 - 0) 0 (k + 1) a
      (by omega)
  · simp [fetchData, hmiss, fetchFresh, hloop]

theorem C9_delay_not_abortable_witness :
    (fetchData 51 envC9 initState []).state.error = none :=
  (C9_delay_not_abortable 51 envC9 initState [] 0 (fun _ => [q1]) rfl rfl
    (by decide) (fun j _ => rfl)).2.2.2

/-- C10: a run whose stored cache entry under the requested key is corrupt
(`JSON.parse` throws on it) first deletes the entry and then behaves exactly
like the run over the store without it - the full cache-miss refetch path,
with no thrown failure and no error beyond what the refetch itself produces:
state, final store and remaining events coincide with the miss-path run, the
trace is prefixed by the cache removal, and the key is absent when the rest
of the run starts. -/
theorem C10_corrupt_cache (total : Nat) (env : FetchEnv) (st : HookState)
    (store : Store)
    (hcorrupt : lookupStore store (cacheKey total) = some .corrupt) :
    (fetchData total env st store).state =
      (fetchData total env st (removeStore store (cacheKey total))).state
    ∧ (fetchData total env st store).store =
      (fetchData total env st (removeStore store (cacheKey total))).store
    ∧ (fetchData total env st store).events =
      .cacheRemove (cacheKey total) ::
        (fetchData total env st (removeStore store (cacheKey total))).events
    ∧ lookupStore (removeStore store (cacheKey total)) (cacheKey total) = none := by
  have hrm := lookup_removeStore store (cacheKey total)
  refine ⟨?_, ?_, ?_, hrm⟩ <;>
    simp [fetchData, hcorrupt, hrm]

theorem C10_corrupt_cache_witness :
    (fetchData 1 envOk1 initState [(cacheKey 1, CacheValue.corrupt)]).events =
      .cacheRemove (cacheKey 1) ::
        (fetchData 1 envOk1 initState
          (removeStore [(cacheKey 1, CacheValue.corrupt)] (cacheKey 1))).events :=
  (C10_corrupt_cache 1 envOk1 initState [(cacheKey 1, CacheValue.corrupt)]
    (by decide)).2.2.1

end Trivia
